import Mathlib

/-!
Verification of the afk-scraper extraction engine (`scraper_service.py`)
against its natural-language specification.

The Python source is shallowly embedded: the parsed HTML document becomes an
inductive tree (`Node`), BeautifulSoup traversal primitives become list
operations over the pre-order enumeration of the tree, and the regular
expressions used by the source are embedded as explicit character-list
matchers with the same semantics on the inputs the program handles.
-/

namespace AfkScraper

/-! ## String utilities (scraper_service.py lines 11-12, Python `str.strip`, `re \s`) -/

/-- Whitespace class of Python's `\s` (ASCII range) and `str.strip()`. -/
def pyWS (c : Char) : Bool :=
  c == ' ' || c == '\t' || c == '\n' || c == '\r' || c == '\x0b' || c == '\x0c'

/-- Replace each maximal run of whitespace by a single space, the effect of
Python `re.sub(r"\s+", " ", s)`; the flag records whether the previous
character was whitespace. -/
def collapseWS : Bool → List Char → List Char
  | _, [] => []
  | prevWS, c :: rest =>
    if pyWS c then
      if prevWS then collapseWS true rest else ' ' :: collapseWS true rest
    else c :: collapseWS false rest

/-- Remove trailing whitespace characters. -/
def trimEndWS : List Char → List Char
  | [] => []
  | c :: rest =>
    if (trimEndWS rest).isEmpty && pyWS c then [] else c :: trimEndWS rest

/-- Python `s.strip()`. -/
def pyStripData (l : List Char) : List Char := trimEndWS (l.dropWhile pyWS)

/-- Python `s.strip()` on `String`. -/
def pyStrip (s : String) : String := String.mk (pyStripData s.data)

/-- Whitespace cleaner of scraper_service.py line 11-12:
`re.sub(r"\s+", " ", s or "").strip()`. -/
def tcleanData (l : List Char) : List Char := pyStripData (collapseWS false l)

/-- Whitespace cleaner `tclean` on `String`. -/
def tclean (s : String) : String := String.mk (tcleanData s.data)

/-- Lower-casing used to embed Python `str.lower()` and the `re.I` flag
(inputs are ASCII). -/
def lowerStr (s : String) : String := String.mk (s.data.map Char.toLower)

/-- Upper-casing, Python `str.upper()` (ASCII inputs). -/
def upperStr (s : String) : String := String.mk (s.data.map Char.toUpper)

/-- Containment of one character list in another (Python `in` on strings). -/
def isSubstr : List Char → List Char → Bool
  | n, [] => n.isEmpty
  | n, c :: t => n.isPrefixOf (c :: t) || isSubstr n t

/-- Containment of `needle` in `hay` (Python `needle in hay`). -/
def substrOf (needle hay : String) : Bool := isSubstr needle.data hay.data

/-- Test that `s` starts with `pre` (Python `str.startswith`). -/
def strStarts (s pre : String) : Bool := pre.data.isPrefixOf s.data

/-- Containment after lower-casing both sides, embedding a case-insensitive
regex substring search for a literal pattern. -/
def substrCI (needle hay : String) : Bool :=
  isSubstr (lowerStr needle).data (lowerStr hay).data

/-- Split on whitespace, Python `str.split()`; used for the multi-valued
HTML `class` attribute. -/
def wordsAux : List Char → List Char → List String
  | [], acc => if acc.isEmpty then [] else [String.mk acc.reverse]
  | c :: rest, acc =>
    if pyWS c then
      if acc.isEmpty then wordsAux rest [] else String.mk acc.reverse :: wordsAux rest []
    else wordsAux rest (c :: acc)

/-- Split a string into whitespace-separated words. -/
def wordsOf (s : String) : List String := wordsAux s.data []

/-! ## Whitespace-normal form

A string is whitespace-normalized when it has no leading or trailing
whitespace, every whitespace character in it is a single space, and no two
whitespace characters are adjacent.  This is the invariant the specification
asserts of stored text fields. -/

/-- Check of the interior/trailing part of normal form: every whitespace
character is a space and is followed by a non-whitespace character. -/
def wsRunsOk : List Char → Bool
  | [] => true
  | c :: rest =>
    (if pyWS c then (c == ' ') && (match rest with | [] => false | d :: _ => !(pyWS d)) else true)
      && wsRunsOk rest

/-- Check that the head, if any, is not whitespace. -/
def headNonWS (l : List Char) : Bool :=
  match l.head? with
  | none => true
  | some c => !(pyWS c)

/-- Whitespace-normal form: trimmed and with all whitespace collapsed to
single interior spaces. -/
def isNormWs (l : List Char) : Bool := headNonWS l && wsRunsOk l

/-- Relaxed normal form allowing a trailing whitespace character: every
whitespace character is a space and no two are adjacent. -/
def goodRun : List Char → Bool
  | [] => true
  | c :: rest =>
    (if pyWS c then (c == ' ') && (match rest with | [] => true | d :: _ => !(pyWS d)) else true)
      && goodRun rest

/-! ## Document tree

A parsed HTML document is a tree of elements (tag, attributes, children) and
text nodes, the shallow embedding of the BeautifulSoup tree. -/

inductive Node where
  | elem (tag : String) (attrs : List (String × String)) (children : List Node)
  | text (s : String)

/-- Tag name of an element; text nodes have no tag. -/
def Node.tagOf : Node → String
  | .elem t _ _ => t
  | .text _ => ""

/-- Element test (a BeautifulSoup `Tag` as opposed to a `NavigableString`). -/
def Node.isElemB : Node → Bool
  | .elem _ _ _ => true
  | .text _ => false

/-- Direct children of a node. -/
def Node.childrenOf : Node → List Node
  | .elem _ _ cs => cs
  | .text _ => []

/-- Attribute lookup, `tag.get(key)` / `tag[key]`. -/
def Node.getAttr : Node → String → Option String
  | .elem _ attrs _, k => (attrs.find? (fun p => p.1 == k)).map (fun p => p.2)
  | .text _, _ => none

/-- Attribute presence, `tag.has_attr(key)`. -/
def Node.hasAttr (n : Node) (k : String) : Bool := (n.getAttr k).isSome

/-- Class tokens of an element (the multi-valued HTML `class` attribute). -/
def Node.classesOf (n : Node) : List String := wordsOf ((n.getAttr "class").getD "")

/-- Membership of one token in the class list, CSS `.token` / `class_=token`. -/
def Node.hasClassTok (n : Node) (c : String) : Bool := (n.classesOf).contains c

mutual

/-- Text contents of all text descendants, in document order. -/
def Node.textsOf : Node → List String
  | .text s => [s]
  | .elem _ _ cs => Node.textsListOf cs

/-- Text contents collected across a child list. -/
def Node.textsListOf : List Node → List String
  | [] => []
  | c :: cs => Node.textsOf c ++ Node.textsListOf cs

end

/-- BeautifulSoup `get_text(sep, strip=True)`: strip every string, drop the
empty ones, join with the separator. -/
def getTextSep (sep : String) (n : Node) : String :=
  String.intercalate sep ((n.textsOf.map pyStrip).filter (fun t => t ≠ ""))

/-- BeautifulSoup `get_text()` with no arguments: plain concatenation. -/
def getTextRaw (n : Node) : String := String.join n.textsOf

mutual

/-- Pre-order enumeration of a tree; each entry carries its whole subtree.
Positions in this list model BeautifulSoup's document order
(`next_elements`), and indices model node identity. -/
def Node.subsOf : Node → List Node
  | .text s => [.text s]
  | .elem t a cs => .elem t a cs :: Node.subsListOf cs

/-- Pre-order enumeration across a child list. -/
def Node.subsListOf : List Node → List Node
  | [] => []
  | c :: cs => Node.subsOf c ++ Node.subsListOf cs

end

/-- Proper descendants of a node in document order. -/
def Node.descOf : Node → List Node
  | .elem _ _ cs => Node.subsListOf cs
  | .text _ => []

/-- First proper descendant satisfying a predicate, `tag.find(...)` /
`tag.select_one(...)` scoped to a subtree. -/
def findFirstDesc (n : Node) (p : Node → Bool) : Option Node :=
  (n.descOf).find? p

/-! ## Position machinery over the pre-order enumeration -/

/-- Node stored at a pre-order index (out-of-range yields an inert text node). -/
def nodeAt (all : List Node) (i : Nat) : Node := all.getD i (.text "")

/-- First index of a list entry satisfying `p`. -/
def findFirstIdx {α : Type} (p : α → Bool) : List α → Option Nat
  | [] => none
  | n :: rest => if p n then some 0 else (findFirstIdx p rest).map (fun k => k + 1)

/-- Smallest index `≥ start` whose node satisfies `p`; models `find_next` /
`find_all_next` head from a node at index `start - 1`. -/
def firstIdxFrom (all : List Node) (start : Nat) (p : Node → Bool) : Option Nat :=
  (findFirstIdx p (all.drop start)).map (fun k => k + start)

/-- Smallest matching index in `[lo, hi)`, used for subtree-scoped finds when
the global index of the result is needed. -/
def firstIdxInRange (all : List Node) (lo hi : Nat) (p : Node → Bool) : Option Nat :=
  match firstIdxFrom all lo p with
  | some j => if j < hi then some j else none
  | none => none

/-- Largest index `< j` whose node satisfies `p`; models `find_previous`. -/
def lastIdxBefore (all : List Node) (j : Nat) (p : Node → Bool) : Option Nat :=
  (((all.take j).enum.filter (fun q => p q.2)).getLast?).map (fun q => q.1)

/-- One-past-the-end of the subtree rooted at index `i` in the pre-order list. -/
def subtreeEnd (all : List Node) (i : Nat) : Nat := i + (nodeAt all i).subsOf.length

/-- Nearest strict ancestor of the node at `j` satisfying `p`; models
`find_parent`.  An ancestor is a node whose pre-order span strictly contains `j`. -/
def parentIdx (all : List Node) (j : Nat) (p : Node → Bool) : Option Nat :=
  (((List.range j).filter (fun k => decide (j < subtreeEnd all k) && p (nodeAt all k))).getLast?)

/-! ## SectionLocator (scraper_service.py lines 32-51) -/

/-- Heading filter of `soup.select("h2,h3,h4")`. -/
def isH234 (n : Node) : Bool := n.tagOf == "h2" || n.tagOf == "h3" || n.tagOf == "h4"

/-- Match of the compiled pattern
`re.compile("|".join([re.escape(t) for t in titles]), flags=re.I)` under
`patt.search`: a case-insensitive substring search for any candidate.  With an
empty candidate list the joined pattern is the empty string, which matches
every text. -/
def titlesMatch (titles : List String) (t : String) : Bool :=
  titles.isEmpty || titles.any (fun c => substrCI c t)

/-- Heading-node predicate of the `extract_section_node` scan. -/
def sectionPred (titles : List String) (n : Node) : Bool :=
  isH234 n && titlesMatch titles (getTextSep " " n)

/-- Embedding of `extract_section_node` (lines 32-37), returning the pre-order
index of the first level-2/3/4 heading whose text the pattern matches. -/
def extractSectionIdx (doc : Node) (titles : List String) : Option Nat :=
  findFirstIdx (sectionPred titles) doc.subsOf

/-- Embedding of `extract_section_node` returning the heading node itself. -/
def extractSectionNode (doc : Node) (titles : List String) : Option Node :=
  (extractSectionIdx doc titles).map (fun i => nodeAt doc.subsOf i)

/-- Tag test `sib.name.startswith("h")` used by several forward scans. -/
def tagStartsH (n : Node) : Bool := strStarts n.tagOf "h"

/-- Collectable-node filter of `extract_section_text`. -/
def isPLiBlockquote (n : Node) : Bool :=
  n.tagOf == "p" || n.tagOf == "li" || n.tagOf == "blockquote"

/-- Embedding of `extract_section_text` (lines 39-51): from the section
heading, walk forward elements until any heading-like tag, collecting
paragraph/list-item/blockquote text. -/
def extractSectionText (doc : Node) (titles : List String) : String :=
  match extractSectionIdx doc titles with
  | none => ""
  | some i =>
    let range := (((doc.subsOf).drop (i + 1)).filter Node.isElemB).takeWhile
      (fun n => !(tagStartsH n))
    let outs := ((range.filter isPLiBlockquote).map
      (fun n => tclean (getTextSep " " n))).filter (fun t => t ≠ "")
    String.intercalate "\n" outs

/-- Claim-side predicate: no level-2/3/4 heading of the document has a text
that any candidate title matches case-insensitively. -/
def noHeadingMatches (titles : List String) (doc : Node) : Bool :=
  ((doc.subsOf).filter isH234).all
    (fun n => !(titles.any (fun c => substrCI c (getTextSep " " n))))

/-- Claim-side predicate: some level-2 heading's text is exactly equal to a
candidate title. -/
def hasExactH2 (titles : List String) (doc : Node) : Bool :=
  (doc.subsOf).any (fun n => n.tagOf == "h2" && titles.contains (getTextSep " " n))

/-! ## InfoboxParser (scraper_service.py lines 23-30, `parse_infobox_map`) -/

mutual

/-- Selector `.portable-infobox .pi-data` on one node: elements having class
token "pi-data" and a strict ancestor with class token "portable-infobox";
the flag records whether such an ancestor has been passed. -/
def piDataRows (inBox : Bool) : Node → List Node
  | .text _ => []
  | .elem t a cs =>
    let n := Node.elem t a cs
    (if inBox && n.hasClassTok "pi-data" then [n] else [])
      ++ piDataRowsList (inBox || n.hasClassTok "portable-infobox") cs

/-- Selector `.portable-infobox .pi-data` across a child list. -/
def piDataRowsList (inBox : Bool) : List Node → List Node
  | [] => []
  | c :: cs => piDataRows inBox c ++ piDataRowsList inBox cs

end

/-- Insertion into the label-value map: Python dict assignment, where a later
duplicate label overwrites the earlier value in place. -/
def mapUpsert (m : List (String × String)) (k v : String) : List (String × String) :=
  if m.any (fun p => p.1 == k) then
    m.map (fun p => if p.1 == k then (k, v) else p)
  else m ++ [(k, v)]

/-- Lookup with empty-string default, Python `dict.get(key, "")`. -/
def mapGet (m : List (String × String)) (k : String) : String :=
  match m.find? (fun p => p.1 == k) with
  | some p => p.2
  | none => ""

/-- Per-row step of `parse_infobox_map` (lines 26-29): store cleaned label
against cleaned value when both cells are present. -/
def infoboxStep (m : List (String × String)) (row : Node) : List (String × String) :=
  match findFirstDesc row (fun n => n.hasClassTok "pi-data-label"),
        findFirstDesc row (fun n => n.hasClassTok "pi-data-value") with
  | some lab, some val =>
    mapUpsert m (tclean (getTextRaw lab)) (tclean (getTextSep " " val))
  | _, _ => m

/-- Embedding of `parse_infobox_map` (lines 23-30). -/
def parseInfoboxMap (doc : Node) : List (String × String) :=
  (piDataRows false doc).foldl infoboxStep []

/-! ## RoleResolver (scraper_service.py lines 122-164, `extract_roles_from_infobox`) -/

/-- Character class `[;|•\n]` stopping the role capture groups. -/
def isRoleStop (c : Char) : Bool := c == ';' || c == '|' || c == '•' || c == '\n'

/-- Separator class of `ROLE_SEP_RE`, `[,/•|;]` (line 122). -/
def isRoleSep (c : Char) : Bool := c == ',' || c == '/' || c == '•' || c == '|' || c == ';'

/-- Case-insensitive literal keyword consumption at the head of the input
(the keyword is given lowercase). -/
def dropKeyCI : List Char → List Char → Option (List Char)
  | [], l => some l
  | _ :: _, [] => none
  | k :: ks, c :: cs => if k == c.toLower then dropKeyCI ks cs else none

/-- Regex fragment `\s*([^;|•\n]+)` with Python's greedy-and-backtracking
semantics: `\s*` consumes as much whitespace as possible while still leaving a
first capture character outside the stop class (a space is itself an
acceptable capture character, hence the backtracking alternative). -/
def sepCapture : List Char → Option (List Char)
  | [] => none
  | c :: rest =>
    if pyWS c then
      match sepCapture rest with
      | some cap => some cap
      | none =>
        if isRoleStop c then none
        else some ((c :: rest).takeWhile (fun d => !(isRoleStop d)))
    else
      if isRoleStop c then none
      else some ((c :: rest).takeWhile (fun d => !(isRoleStop d)))

/-- Match of the full pattern `kw\s*[:\-]\s*([^;|•\n]+)` anchored at the head
of the input, returning the capture group. -/
def roleMatchAt (kw : List Char) (l : List Char) : Option (List Char) :=
  match dropKeyCI kw l with
  | none => none
  | some r1 =>
    match r1.dropWhile pyWS with
    | [] => none
    | c :: r3 => if c == ':' || c == '-' then sepCapture r3 else none

/-- Leftmost search of the role pattern, `re.search` semantics. -/
def roleSearch (kw : List Char) : List Char → Option (List Char)
  | [] => roleMatchAt kw []
  | c :: rest =>
    match roleMatchAt kw (c :: rest) with
    | some cap => some cap
    | none => roleSearch kw rest

/-- Embedding of `re.search(r"(?i)kw\s*[:\-]\s*([^;|•\n]+)", text)` followed by
`m.group(1).strip()` (lines 147-152). -/
def roleRegex (kw text : String) : Option String :=
  (roleSearch kw.data text.data).map (fun cap => String.mk (pyStripData cap))

/-- Embedding of `ROLE_SEP_RE.split(text)` (line 157): split on
`\s*[,/•|;]\s*`, each separator consuming the adjacent whitespace; the flag
records that whitespace following a separator is still being consumed. -/
def roleSplitGo (skip : Bool) (acc : List Char) : List Char → List String
  | [] => [String.mk acc.reverse]
  | c :: rest =>
    if skip && pyWS c then roleSplitGo true acc rest
    else if isRoleSep c then
      String.mk (trimEndWS acc.reverse) :: roleSplitGo true [] rest
    else roleSplitGo false (c :: acc) rest

/-- Split a role list field on the separator class. -/
def roleSplit (s : String) : List String := roleSplitGo false [] s.data

/-- Step 1 of the resolver (lines 128-136): explicit "primary role" /
"secondary role" labels, later rows overwriting earlier ones. -/
def rolesStep1 (m : List (String × String)) : String × String :=
  m.foldl
    (fun pr kv =>
      let lk := lowerStr kv.1
      if substrOf "primary role" lk || pyStrip lk == "primary" then (kv.2, pr.2)
      else if substrOf "secondary role" lk || pyStrip lk == "secondary" then (pr.1, kv.2)
      else pr)
    ("", "")

/-- Embedding of `extract_roles_from_infobox` (lines 124-164): explicit
fields, else the "Role"/"Roles"/classification field with the
primary/secondary regexes, else the separator split. -/
def extractRolesFromInfobox (m : List (String × String)) : String × String :=
  let out := rolesStep1 m
  if out.1 ≠ "" || out.2 ≠ "" then out
  else
    let roleKey :=
      match m.find? (fun kv => lowerStr kv.1 == "role" || lowerStr kv.1 == "roles") with
      | some kv => some kv
      | none => m.find? (fun kv => substrOf "classification" (lowerStr kv.1))
    match roleKey with
    | none => ("", "")
    | some kv =>
      let t := kv.2
      let p := (roleRegex "primary" t).getD ""
      let s := (roleRegex "secondary" t).getD ""
      if p ≠ "" || s ≠ "" then (p, s)
      else
        match (roleSplit t).filter (fun q => q ≠ "") with
        | [] => (p, s)
        | q :: rest => (q, if rest.isEmpty then s else String.intercalate ", " rest)

/-! ## Intro extractor (scraper_service.py lines 54-85, `extract_intro_text`)

The source iterates the direct children of the `.mw-parser-output` container
and, inside each paragraph it processes, calls `bad.decompose()` on every
nested `aside, .portable-infobox` match.  `decompose` destroys nodes of the
shared input tree, so the embedding returns the updated whole tree alongside
the collected text. -/

/-- Match of the cleanup selector `"aside, .portable-infobox"` (line 72). -/
def isBadFrag (n : Node) : Bool :=
  n.isElemB && (n.tagOf == "aside" || n.hasClassTok "portable-infobox")

mutual

/-- Removal of decomposed descendants inside a kept node. -/
def stripBad : Node → Node
  | .text s => .text s
  | .elem t a cs => .elem t a (stripBadList cs)

/-- Removal of decomposed nodes from a child list. -/
def stripBadList : List Node → List Node
  | [] => []
  | c :: cs => (if isBadFrag c then [] else [stripBad c]) ++ stripBadList cs

end

/-- Blank navigable-string skip (line 63). -/
def isBlankText : Node → Bool
  | .text s => pyStrip s == ""
  | .elem _ _ _ => false

/-- Skip of the infobox aside at top level (line 67). -/
def isAsideOrInfoboxDiv (n : Node) : Bool :=
  n.tagOf == "aside" || (n.tagOf == "div" && n.hasClassTok "portable-infobox")

/-- Table-of-contents marker (line 82). -/
def isTocDiv (n : Node) : Bool :=
  n.tagOf == "div" && (n.getAttr "id").getD "" == "toc"

/-- Loop over the content container's direct children (lines 61-83): collect
cleaned paragraph text, stop at the first `h2` or the TOC, and thread the
in-place paragraph cleanup through to the updated child list. -/
def introLoop : List Node → (List String × List Node)
  | [] => ([], [])
  | n :: rest =>
    if isBlankText n then
      let r := introLoop rest; (r.1, n :: r.2)
    else if isAsideOrInfoboxDiv n then
      let r := introLoop rest; (r.1, n :: r.2)
    else if n.tagOf == "p" then
      let n2 := stripBad n
      let txt := tclean (getTextSep " " n2)
      let r := introLoop rest
      ((if txt ≠ "" then [txt] else []) ++ r.1, n2 :: r.2)
    else if n.tagOf == "h2" then ([], n :: rest)
    else if isTocDiv n then ([], n :: rest)
    else
      let r := introLoop rest; (r.1, n :: r.2)

/-- Content-container test of `select_one(".mw-parser-output")` (line 55). -/
def isContentDiv (n : Node) : Bool := n.isElemB && n.hasClassTok "mw-parser-output"

mutual

/-- Search for the first `.mw-parser-output` element in pre-order; where it is
found, its children are replaced by the intro loop's updated list, and the
collected intro lines are reported. -/
def introGo : Node → (Node × Option (List String))
  | .text s => (.text s, none)
  | .elem t a cs =>
    if isContentDiv (.elem t a cs) then
      let r := introLoop cs
      (.elem t a r.2, some r.1)
    else
      let rr := introGoList cs
      (.elem t a rr.1, rr.2)

/-- Search across a child list, keeping siblings not containing the content
container untouched. -/
def introGoList : List Node → (List Node × Option (List String))
  | [] => ([], none)
  | c :: cs =>
    let rc := introGo c
    match rc.2 with
    | some ts => (rc.1 :: cs, some ts)
    | none =>
      let rr := introGoList cs
      (c :: rr.1, rr.2)

end

/-- Embedding of `extract_intro_text` (lines 54-85): the collected text joined
with newlines, together with the input tree as mutated by the nested-infobox
decomposition.  The container search covers descendants of the root, matching
`soup.select_one`. -/
def extractIntroPair (doc : Node) : String × Node :=
  match doc with
  | .elem t a cs =>
    let r := introGoList cs
    (match r.2 with
     | some ts => String.intercalate "\n" ts
     | none => "", .elem t a r.1)
  | .text s => ("", .text s)

mutual

/-- Count of all nodes of a tree, a projection separating mutated trees from
their originals. -/
def Node.countOf : Node → Nat
  | .text _ => 1
  | .elem _ _ cs => 1 + Node.countListOf cs

/-- Count of all nodes across a child list. -/
def Node.countListOf : List Node → Nat
  | [] => 0
  | c :: cs => Node.countOf c + Node.countListOf cs

end

mutual

/-- Absence of aside / portable-infobox fragments in a tree. -/
def noBadIn : Node → Bool
  | .text _ => true
  | .elem t a cs => !(isBadFrag (.elem t a cs)) && noBadInList cs

/-- Absence of aside / portable-infobox fragments across a child list. -/
def noBadInList : List Node → Bool
  | [] => true
  | c :: cs => noBadIn c && noBadInList cs

end

/-! ## Quotes (scraper_service.py lines 88-119, `extract_quotes`) -/

/-- Embedding of `gather_by_id_or_text` (lines 89-109): resolve the anchor
span (by exact id, else by heading text keyword with an `mw-headline` span
fallback), climb to the enclosing heading, take the first following `ul`, and
collect its cleaned list-item texts. -/
def gatherByIdOrText (doc : Node) (anchorId kw : String) : List String :=
  let all := doc.subsOf
  let spanIdx :=
    match findFirstIdx (fun n => n.tagOf == "span" && (n.getAttr "id") == some anchorId) all with
    | some j => some j
    | none =>
      match findFirstIdx
          (fun n => isH234 n && substrOf (lowerStr kw) (lowerStr (getTextSep " " n))) all with
      | none => none
      | some h =>
        match firstIdxInRange all (h + 1) (subtreeEnd all h)
            (fun n => n.tagOf == "span" && n.hasClassTok "mw-headline") with
        | some s => some s
        | none => some h
  match spanIdx with
  | none => []
  | some si =>
    let htagIdx :=
      if isH234 (nodeAt all si) then some si
      else parentIdx all si isH234
    match htagIdx with
    | none => []
    | some hi =>
      match firstIdxFrom all (hi + 1) (fun n => n.tagOf == "ul") with
      | none => []
      | some ui =>
        let lis := (nodeAt all ui).descOf.filter (fun n => n.tagOf == "li")
        (lis.map (fun li => tclean (getTextRaw li))).filter (fun t => t ≠ "")

/-- Deduplication with an explicit seen set, the loop of lines 115-118. -/
def dedupFirstGo (seen : List String) : List String → List String
  | [] => []
  | q :: rest =>
    if seen.contains q then dedupFirstGo seen rest
    else q :: dedupFirstGo (q :: seen) rest

/-- Deduplication by exact text, first occurrence kept. -/
def dedupFirst (l : List String) : List String := dedupFirstGo [] l

/-- Quote lines of a document: voice lines before other quotes, deduplicated
(lines 111-118). -/
def quoteLinesOf (doc : Node) : List String :=
  dedupFirst (gatherByIdOrText doc "Voice_Lines" "Voice Lines"
    ++ gatherByIdOrText doc "Other_Quotes" "Other Quotes")

/-- Embedding of `extract_quotes` (line 119). -/
def extractQuotes (doc : Node) : String := String.intercalate "\n" (quoteLinesOf doc)

/-! ## Skills (scraper_service.py lines 167-257) -/

mutual

/-- Selector `"tr th"` scoped to a subtree: `th` elements having a `tr`
ancestor below the root; the flag records whether a `tr` has been passed. -/
def thUnderTr (inTr : Bool) : Node → List Node
  | .text _ => []
  | .elem t a cs =>
    (if inTr && t == "th" then [Node.elem t a cs] else [])
      ++ thUnderTrList (inTr || t == "tr") cs

/-- Selector `"tr th"` across a child list. -/
def thUnderTrList (inTr : Bool) : List Node → List Node
  | [] => []
  | c :: cs => thUnderTr inTr c ++ thUnderTrList inTr cs

end

/-- Header `th` cells of a table, `tb.select("tr th")`. -/
def selectTrTh (tb : Node) : List Node := thUnderTrList false tb.childrenOf

/-- Rows of a table, `tb.select("tr")`. -/
def selectTr (tb : Node) : List Node := tb.descOf.filter (fun n => n.tagOf == "tr")

/-- Cells of a row, `tr.find_all(["th","td"])` / `tr.find_all(["td","th"])`. -/
def cellsOf (tr : Node) : List Node :=
  tr.descOf.filter (fun n => n.tagOf == "th" || n.tagOf == "td")

/-- Lower-cased cleaned header texts (line 176). -/
def headersOf (tb : Node) : List String :=
  (selectTrTh tb).map (fun th => lowerStr (tclean (getTextSep " " th)))

/-- Qualification of a skills table (line 177): non-empty headers containing a
"name" column and a "description" column. -/
def skillsTableOk (tb : Node) : Bool :=
  let hs := headersOf tb
  !hs.isEmpty && hs.any (fun h => substrOf "name" h)
    && hs.any (fun h => substrOf "description" h)

/-- Heading-tag filter used by `find_previous` in the table scans (elements
whose tag starts with "h"). -/
def isHLike (n : Node) : Bool := n.isElemB && tagStartsH n

/-- Indices `≥ start` of nodes satisfying `p`, the candidate stream of a
`find_all_next` loop. -/
def elemIdxsFrom (all : List Node) (start : Nat) (p : Node → Bool) : List Nat :=
  ((List.range all.length).drop start).filter (fun j => p (nodeAt all j))

/-- Forward table scan shared by skills and engravings (lines 172-179 and
266-273): abort when the nearest preceding heading-like tag of a candidate
table is not the section heading, otherwise accept the first qualifying
table. -/
def tableScanGo (all : List Node) (hIdx : Nat) (accept : Node → Bool) : List Nat → Option Nat
  | [] => none
  | j :: rest =>
    match lastIdxBefore all j isHLike with
    | some k =>
      if k ≠ hIdx then none
      else if accept (nodeAt all j) then some j
      else tableScanGo all hIdx accept rest
    | none =>
      if accept (nodeAt all j) then some j
      else tableScanGo all hIdx accept rest

/-- Skills-table location (lines 168-181). -/
def findSkillsTable (doc : Node) : Option Nat :=
  match extractSectionIdx doc ["Skills"] with
  | none => none
  | some i =>
    tableScanGo doc.subsOf i skillsTableOk
      (elemIdxsFrom doc.subsOf (i + 1) (fun n => n.tagOf == "table"))

/-- First index among header cells whose text contains the key, `idx_of`
(lines 185-189 and 278-282). -/
def idxOfKey (cells : List String) (key : String) : Option Nat :=
  findFirstIdx (fun h => substrOf key h) cells

/-- Header cells of the first row (lines 183-184 and 276-277). -/
def headerCellsOf (tb : Node) : List String :=
  match (selectTr tb).head? with
  | some tr0 => (cellsOf tr0).map (fun c => lowerStr (tclean (getTextSep " " c)))
  | none => []

/-- Image source with Python falsy-or semantics,
`img.get("data-src") or img.get("src") or ""`. -/
def imgSrcOf (img : Node) : String :=
  match img.getAttr "data-src" with
  | some v =>
    if v == "" then
      match img.getAttr "src" with
      | some w => w
      | none => ""
    else v
  | none =>
    match img.getAttr "src" with
    | some w => w
    | none => ""

/-- Icon text of a row (lines 208-212 and 295-299): bounds-checked cell, first
`img` descendant, alternate-source-first attribute read. -/
def cellIcon (tds : List Node) (iconIdx : Option Nat) : String :=
  match iconIdx with
  | none => ""
  | some ii =>
    if tds.length ≤ ii then ""
    else
      match findFirstDesc (tds.getD ii (.text "")) (fun n => n.tagOf == "img") with
      | none => ""
      | some img => imgSrcOf img

/-- Skill entry as produced by the two skills strategies. -/
structure SkillRow where
  unlockLevel : String
  skillName : String
  typ : String
  description : String
  icon : String
deriving DecidableEq

/-- Data rows of a qualified skills table (lines 183-216). -/
def skillRowsFromTable (tb : Node) : List SkillRow :=
  let header := headerCellsOf tb
  match idxOfKey header "name", idxOfKey header "description" with
  | some ni, some di =>
    ((selectTr tb).drop 1).filterMap (fun tr =>
      let tds := cellsOf tr
      if tds.length ≤ max ni di then none
      else
        let name := tclean (getTextSep " " (tds.getD ni (.text "")))
        let desc := tclean (getTextSep " " (tds.getD di (.text "")))
        let unlock :=
          match idxOfKey header "unlock" with
          | some ui =>
            if ui < tds.length then tclean (getTextSep " " (tds.getD ui (.text ""))) else ""
          | none => ""
        let icon := cellIcon tds (idxOfKey header "icon")
        if name ≠ "" || desc ≠ "" || unlock ≠ "" then
          some ⟨unlock, name, "", desc, icon⟩
        else none)
  | _, _ => []

/-- Embedding of `extract_skills_from_table` (lines 167-216). -/
def extractSkillsFromTable (doc : Node) : List SkillRow :=
  match findSkillsTable doc with
  | none => []
  | some j => skillRowsFromTable (nodeAt doc.subsOf j)

/-- Skill-box entry of `extract_skills_boxes` (lines 218-251). -/
def skillBoxRow (box : Node) : Option SkillRow :=
  match findFirstDesc box (fun n => n.isElemB && n.hasClassTok "skillbox-header") with
  | none => none
  | some header =>
    let name := tclean (getTextSep " " header)
    let typ :=
      match findFirstDesc header (fun n => n.tagOf == "small") with
      | some sm => tclean (getTextSep " " sm)
      | none => ""
    let icon :=
      match findFirstDesc box (fun n => n.isElemB && n.hasClassTok "skillbox-image") with
      | some imgDiv =>
        match findFirstDesc imgDiv (fun n => n.tagOf == "img") with
        | some img => imgSrcOf img
        | none => ""
      | none => ""
    let descParts :=
      ((box.descOf.filter (fun n =>
          n.isElemB && (n.hasClassTok "skillbox-description" || n.tagOf == "p" || n.tagOf == "li"))).map
        (fun d => tclean (getTextSep " " d))).filter (fun t => t ≠ "")
    let desc := String.intercalate "\n" (dedupFirst descParts)
    if name ≠ "" || desc ≠ "" then some ⟨"", name, typ, desc, icon⟩ else none

/-- Embedding of `extract_skills_boxes` (lines 218-251). -/
def extractSkillsBoxes (doc : Node) : List SkillRow :=
  (doc.subsOf.filter (fun n => n.tagOf == "div" && n.hasClassTok "skillbox")).filterMap
    skillBoxRow

/-- Embedding of `extract_skills` (lines 253-257): table strategy first, box
strategy exactly when the table strategy yields zero entries. -/
def extractSkills (doc : Node) : List SkillRow :=
  let s := extractSkillsFromTable doc
  if s.isEmpty then extractSkillsBoxes doc else s

/-- Concrete document with a Skills table lacking a "description" header
column and a fallback skill box. -/
def sampleSkillsDoc : Node :=
  Node.elem "html" []
    [Node.elem "h2" [] [Node.text "Skills"],
     Node.elem "table" []
      [Node.elem "tr" []
        [Node.elem "th" [] [Node.text "Name"], Node.elem "th" [] [Node.text "Effect"]],
       Node.elem "tr" []
        [Node.elem "td" [] [Node.text "Slash"], Node.elem "td" [] [Node.text "Cuts."]]],
     Node.elem "div" [("class", "skillbox")]
      [Node.elem "div" [("class", "skillbox-header")] [Node.text "Slash"],
       Node.elem "p" [] [Node.text "Cuts things."]]]

/-! ## Engraving abilities (scraper_service.py lines 260-312) -/

/-- Engraving entry (line 302 / 311). -/
structure EngravingRow where
  hero : String
  skillName : String
  unlockLevel : String
  description : String
  icon : String
deriving DecidableEq

/-- Qualification of an engraving table (line 271): non-empty headers with an
"unlock" or "level" column and a "description" column. -/
def engravingTableOk (tb : Node) : Bool :=
  let hs := headersOf tb
  !hs.isEmpty
    && (hs.any (fun h => substrOf "unlock" h) || hs.any (fun h => substrOf "level" h))
    && hs.any (fun h => substrOf "description" h)

/-- Python `a or b` on optional column indices (line 285): `some 0` is falsy. -/
def pyOrIdx (a b : Option Nat) : Option Nat :=
  match a with
  | some n => if n == 0 then b else some n
  | none => b

/-- Guarded cell read shared by the engraving row loop (lines 291-293). -/
def cellTextAt (tds : List Node) : Option Nat → String
  | some k => if k < tds.length then tclean (getTextSep " " (tds.getD k (.text ""))) else ""
  | none => ""

/-- Data rows of a qualified engraving table (lines 276-303). -/
def engRowsFromTable (tb : Node) (hero : String) : List EngravingRow :=
  let header := headerCellsOf tb
  let ni := idxOfKey header "name"
  let di := idxOfKey header "description"
  let ui := pyOrIdx (idxOfKey header "unlock") (idxOfKey header "level")
  let ii := idxOfKey header "icon"
  ((selectTr tb).drop 1).filterMap (fun tr =>
    let tds := cellsOf tr
    if tds.isEmpty then none
    else
      let name := cellTextAt tds ni
      let desc := cellTextAt tds di
      let unlock := cellTextAt tds ui
      let icon := cellIcon tds ii
      if name ≠ "" || desc ≠ "" || unlock ≠ "" then
        some ⟨hero, name, unlock, desc, icon⟩
      else none)

/-- Word character of the regex `\b` boundary (ASCII `\w`). -/
def isWordChar (c : Char) : Bool := c.isAlphanum || c == '_'

/-- Match of one `E\s*NN` alternative at a position, returning the matched
characters and the count consumed beyond the first character. -/
def matchENum (digits : List Char) (c : Char) (rest : List Char) : Option (List Char × Nat) :=
  if c.toLower == 'e' then
    let w := rest.takeWhile pyWS
    let r := rest.drop w.length
    if digits.isPrefixOf r then some (c :: (w ++ digits), w.length + digits.length) else none
  else none

/-- Match of one `[NN]` alternative at a position. -/
def matchBrk (digits : List Char) (c : Char) (rest : List Char) : Option (List Char × Nat) :=
  if c == '[' then
    if (digits ++ [']']).isPrefixOf rest then
      some (c :: (digits ++ [']']), digits.length + 1)
    else none
  else none

/-- Alternation `E\s*30|E\s*60|E\s*80|\[30\]|\[60\]|\[80\]` tried in pattern
order at one position. -/
def matchEngAlt (c : Char) (rest : List Char) : Option (List Char × Nat) :=
  match matchENum ['3', '0'] c rest with
  | some r => some r
  | none =>
  match matchENum ['6', '0'] c rest with
  | some r => some r
  | none =>
  match matchENum ['8', '0'] c rest with
  | some r => some r
  | none =>
  match matchBrk ['3', '0'] c rest with
  | some r => some r
  | none =>
  match matchBrk ['6', '0'] c rest with
  | some r => some r
  | none => matchBrk ['8', '0'] c rest

/-- Split of the section prose on the captured marker group (line 307),
`re.split` keeping separators: text parts at even positions, markers at odd
positions.  The previous character is carried for the `\b` boundary test; the
counter skips the characters a just-emitted marker consumed from the rest of
the input. -/
def engSplitGo : Nat → Option Char → List Char → List Char → List String
  | _, _, acc, [] => [String.mk acc.reverse]
  | skip + 1, _, acc, c :: rest => engSplitGo skip (some c) acc rest
  | 0, prev, acc, c :: rest =>
    let prevWord := match prev with | some pc => isWordChar pc | none => false
    if prevWord != isWordChar c then
      match matchEngAlt c rest with
      | some (m, k) =>
        String.mk acc.reverse :: String.mk m :: engSplitGo k (some c) [] rest
      | none => engSplitGo 0 (some c) (c :: acc) rest
    else engSplitGo 0 (some c) (c :: acc) rest

/-- Marker/segment pairs from the split parts: each odd-position marker with
the following text segment (line 308-310). -/
def engPairsGo : List String → List (String × String)
  | [] => []
  | [_] => []
  | _ :: sep :: rest =>
    (sep, match rest with | d :: _ => d | [] => "") :: engPairsGo rest

/-- Character set of `strip("[] ")`. -/
def isBrkSp (c : Char) : Bool := c == '[' || c == ']' || c == ' '

/-- Python `s.strip("[] ")`. -/
def stripBrkSp (s : String) : String :=
  String.mk (((s.data.dropWhile isBrkSp).reverse.dropWhile isBrkSp).reverse)

/-- Marker normalization `*.upper().replace(" ", "")` (line 309). -/
def markOf (s : String) : String :=
  String.mk ((upperStr (stripBrkSp s)).data.filter (fun c => !(c == ' ')))

/-- Embedding of `extract_engraving_rows` (lines 260-312): table strategy
first, else the prose split on `E30/E60/E80` style markers. -/
def extractEngravingRows (doc : Node) (hero : String) : List EngravingRow :=
  match extractSectionIdx doc ["Engraving Abilities", "Engraving"] with
  | none => []
  | some i =>
    match tableScanGo doc.subsOf i engravingTableOk
        (elemIdxsFrom doc.subsOf (i + 1) (fun n => n.tagOf == "table")) with
    | some j => engRowsFromTable (nodeAt doc.subsOf j) hero
    | none =>
      let parts := engSplitGo 0 none []
        (extractSectionText doc ["Engraving Abilities", "Engraving"]).data
      (engPairsGo parts).map (fun pr =>
        ⟨hero, "", markOf pr.1, tclean pr.2, ""⟩)

/-- Concrete engraving document whose unlock column is the FIRST column. -/
def sampleEngravingDoc : Node :=
  Node.elem "html" []
    [Node.elem "h2" [] [Node.text "Engraving Abilities"],
     Node.elem "table" []
      [Node.elem "tr" []
        [Node.elem "th" [] [Node.text "Unlock"],
         Node.elem "th" [] [Node.text "Name"],
         Node.elem "th" [] [Node.text "Description"]],
       Node.elem "tr" []
        [Node.elem "td" [] [Node.text "30"],
         Node.elem "td" [] [Node.text "Power"],
         Node.elem "td" [] [Node.text "Gains power."]]]]

/-- Concrete engraving document whose unlock column is the second column. -/
def sampleEngravingDoc2 : Node :=
  Node.elem "html" []
    [Node.elem "h2" [] [Node.text "Engraving Abilities"],
     Node.elem "table" []
      [Node.elem "tr" []
        [Node.elem "th" [] [Node.text "Name"],
         Node.elem "th" [] [Node.text "Unlock"],
         Node.elem "th" [] [Node.text "Description"]],
       Node.elem "tr" []
        [Node.elem "td" [] [Node.text "Power"],
         Node.elem "td" [] [Node.text "30"],
         Node.elem "td" [] [Node.text "Gains power."]]]]

/-! ## LinkScanner (scraper_service.py lines 516-568) -/

/-- Match of the compiled id pattern `^Heroes$` with `re.I` under attribute
search: the value is exactly "Heroes" up to case. -/
def idMatchesHeroes (s : String) : Bool := lowerStr s == "heroes"

/-- Match of a whole word at the head of the input: the (lowercase) word
followed by a non-word character or the end. -/
def wordMatchAt (w : List Char) (l : List Char) : Bool :=
  match dropKeyCI w l with
  | none => false
  | some r => match r with | [] => true | d :: _ => !(isWordChar d)

/-- Search for `\bWORD\b` (case-insensitive), carrying the previous character
for the left boundary. -/
def wordSearchGo (w : List Char) (prev : Option Char) : List Char → Bool
  | [] => false
  | c :: rest =>
    ((match prev with | some pc => !(isWordChar pc) | none => true)
        && wordMatchAt w (c :: rest))
      || wordSearchGo w (some c) rest

/-- Embedding of `re.search(r"\bHeroes\b", text, re.I)` (line 524). -/
def hasHeroesWord (text : String) : Bool := wordSearchGo "heroes".data none text.data

/-- Embedding of `find_heroes_section` (lines 516-526): a span with id
"Heroes" inside an h2/h3, else the first h2/h3 whose text contains the word
"Heroes". -/
def findHeroesSectionIdx (doc : Node) : Option Nat :=
  let all := doc.subsOf
  let fallback := findFirstIdx
    (fun n => (n.tagOf == "h2" || n.tagOf == "h3") && hasHeroesWord (getTextSep " " n)) all
  match findFirstIdx
      (fun n => n.tagOf == "span" && idMatchesHeroes ((n.getAttr "id").getD "")
        && n.hasAttr "id") all with
  | some si =>
    match parentIdx all si (fun n => n.tagOf == "h2" || n.tagOf == "h3") with
    | some hi => some hi
    | none => fallback
  | none => fallback

/-- Denylist of line 559. -/
def ignoredPaths : List String :=
  ["/wiki/Heroes", "/wiki/Rarity", "/wiki/Class", "/wiki/Type", "/wiki/Faction", "/wiki/Union"]

/-- Embedding of `href.replace("/wiki/", "")` (line 554): left-to-right
removal of every occurrence. -/
def removeWikiGo : List Char → List Char
  | '/' :: 'w' :: 'i' :: 'k' :: 'i' :: '/' :: rest => removeWikiGo rest
  | c :: rest => c :: removeWikiGo rest
  | [] => []

/-- Host part of a URL up to the first slash. -/
def upToSlash : List Char → List Char
  | [] => []
  | c :: rest => if c == '/' then [] else c :: upToSlash rest

/-- Scheme-and-authority part of an absolute URL. -/
def originGo (acc : List Char) : List Char → List Char
  | [] => []
  | c :: rest =>
    if ("://".data).isPrefixOf (c :: rest) then
      acc.reverse ++ ':' :: '/' :: '/' :: upToSlash (rest.drop 2)
    else originGo (c :: acc) rest

/-- Modelled from `urllib.parse.urljoin` restricted to the root-relative
references this scanner resolves (every processed href starts with "/wiki/"):
the base's scheme and authority followed by the reference path. -/
def urljoinRooted (base href : String) : String :=
  String.mk (originGo [] base.data) ++ href

/-- Anchor descendants with an href, `node.find_all("a", href=True)` (line 543). -/
def anchorsUnder (n : Node) : List Node :=
  n.descOf.filter (fun a => a.tagOf == "a" && a.hasAttr "href")

/-- Per-anchor step of the scanning loop (lines 543-564) over the state
(seen, out). -/
def processAnchor (base : String) (st : List String × List String) (a : Node) :
    List String × List String :=
  let name := tclean (getTextSep " " a)
  let href := (a.getAttr "href").getD ""
  if name == "" then st
  else if !(strStarts href "/wiki/") then st
  else
    let abs := urljoinRooted base href
    if st.1.contains abs then st
    else if (removeWikiGo href.data).contains ':' then st
    else if ignoredPaths.any (fun p => strStarts href p) then st
    else (abs :: st.1, st.2 ++ [abs])

/-- Elements iterated by the scanning loop: everything after the Heroes
heading up to the next h2/h3 (lines 537-541). -/
def linkNodesRange (doc : Node) (rootIdx : Nat) : List Node :=
  (((doc.subsOf).drop (rootIdx + 1)).filter Node.isElemB).takeWhile
    (fun n => !(n.tagOf == "h2" || n.tagOf == "h3"))

/-- Per-node step: fold the anchor step over the node's anchors. -/
def linkFoldStep (base : String) (st : List String × List String) (node : Node) :
    List String × List String :=
  (anchorsUnder node).foldl (processAnchor base) st

/-- Embedding of the body of `extract_hero_links` (lines 528-565) on a parsed
document. -/
def extractHeroLinksDoc (base : String) (doc : Node) : List String :=
  match findHeroesSectionIdx doc with
  | none => []
  | some ri => ((linkNodesRange doc ri).foldl (linkFoldStep base) ([], [])).2

/-- Embedding of `extract_hero_links` including the try/except boundary: a
fetch/parse failure yields the empty list (lines 566-568). -/
def extractHeroLinks (base : String) (fetch : Except String Node) : List String :=
  match fetch with
  | .ok doc => extractHeroLinksDoc base doc
  | .error _ => []

/-- State invariant of the scanning loop: the output is duplicate-free and
contained in the seen set. -/
def LinkInv (st : List String × List String) : Prop :=
  st.2.Nodup ∧ ∀ x ∈ st.2, x ∈ st.1

/-- Concrete faction page: duplicate anchors to one hero, a namespaced link
and the Heroes index link. -/
def sampleFactionDoc : Node :=
  Node.elem "html" []
    [Node.elem "h2" [] [Node.elem "span" [("id", "Heroes")] [Node.text "Heroes"]],
     Node.elem "ul" []
      [Node.elem "li" [] [Node.elem "a" [("href", "/wiki/Alice")] [Node.text "Alice"]],
       Node.elem "li" [] [Node.elem "a" [("href", "/wiki/Alice")] [Node.text "Alice the Brave"]],
       Node.elem "li" [] [Node.elem "a" [("href", "/wiki/Category:Stuff")] [Node.text "Cat"]],
       Node.elem "li" [] [Node.elem "a" [("href", "/wiki/Heroes")] [Node.text "Heroes"]]],
     Node.elem "h2" [] [Node.text "Other"]]

/-- Soundness invariant for the denylist claim: every collected link resolves
some raw href that passed all the filters. -/
def LinkSound (base : String) (st : List String × List String) : Prop :=
  ∀ x ∈ st.2, ∃ href,
    x = urljoinRooted base href ∧
    strStarts href "/wiki/" = true ∧
    (removeWikiGo href.data).contains ':' = false ∧
    ∀ p ∈ ignoredPaths, strStarts href p = false

/-! ## Signature item (scraper_service.py lines 373-423) -/

/-- Signature entry (line 423). -/
structure SignatureRow where
  hero : String
  description : String
deriving DecidableEq

/-- Match of the id pattern `^signature[\s_]*item$` (case-insensitive,
line 374). -/
def sigIdCheck (l : List Char) : Bool :=
  match dropKeyCI "signature".data l with
  | none => false
  | some r =>
    match dropKeyCI "item".data (r.dropWhile (fun c => pyWS c || c == '_')) with
    | some [] => true
    | _ => false

/-- Match of `signature\s+item` with a trailing word boundary, anchored at the
head of the input. -/
def sigWordsMatchAt (l : List Char) : Bool :=
  match dropKeyCI "signature".data l with
  | none => false
  | some r =>
    let w := r.takeWhile pyWS
    if w.isEmpty then false
    else
      match dropKeyCI "item".data (r.drop w.length) with
      | none => false
      | some r2 => match r2 with | [] => true | d :: _ => !(isWordChar d)

/-- Search for `\bsignature\s+item\b` (case-insensitive, line 379). -/
def sigWordsSearch (prev : Option Char) : List Char → Bool
  | [] => false
  | c :: rest =>
    ((match prev with | some pc => !(isWordChar pc) | none => true)
        && sigWordsMatchAt (c :: rest))
      || sigWordsSearch (some c) rest

/-- Text search of the signature-item heading fallback. -/
def hasSigItemWords (text : String) : Bool := sigWordsSearch none text.data

/-- Embedding of `find_sig_heading` (lines 373-381). -/
def findSigHeadingIdx (doc : Node) : Option Nat :=
  let all := doc.subsOf
  let fallback := findFirstIdx
    (fun n => (n.tagOf == "h2" || n.tagOf == "h3") && hasSigItemWords (getTextSep " " n)) all
  match findFirstIdx
      (fun n => n.tagOf == "span" &&
        (match n.getAttr "id" with | some v => sigIdCheck v.data | none => false)) all with
  | some si =>
    match parentIdx all si (fun n => n.tagOf == "h2" || n.tagOf == "h3") with
    | some hi => some hi
    | none => fallback
  | none => fallback

/-- Embedding of `heading_level` (lines 19-20). -/
def headingLevel (n : Node) : Nat :=
  let t := n.tagOf
  if strStarts t "h" then
    match t.data.drop 1 with
    | d :: _ => if d.isDigit then d.toNat - '0'.toNat else 99
    | [] => 99
  else 99

/-- Match of `(?i)^(item|skill)\s*:` against a kept sub-heading title
(line 401). -/
def sigKeepAt (kw : List Char) (l : List Char) : Bool :=
  match dropKeyCI kw l with
  | none => false
  | some r => match r.dropWhile pyWS with | ':' :: _ => true | _ => false

/-- Title filter for level-3/4 sub-headings in the signature walk. -/
def sigTitleKeep (s : String) : Bool :=
  sigKeepAt "item".data s.data || sigKeepAt "skill".data s.data

/-- Line contributions of one walked node (lines 399-413). -/
def sigNodeLines (n : Node) : List String :=
  if n.tagOf == "h3" || n.tagOf == "h4" then
    let title := tclean (getTextSep " " n)
    if sigTitleKeep title then [title] else []
  else if n.tagOf == "p" || n.tagOf == "blockquote" then
    let txt := tclean (getTextSep " " n)
    if txt ≠ "" then [txt] else []
  else if n.tagOf == "ul" then
    ((n.descOf.filter (fun li => li.tagOf == "li")).map
      (fun li => tclean (getTextSep " " li))).filter (fun t => t ≠ "")
  else []

/-- Embedding of `extract_signature_item_desc` (lines 383-419): walk forward
from the heading until a heading of equal-or-lower depth, collect lines,
deduplicate and join. -/
def extractSignatureItemDesc (doc : Node) : String :=
  match findSigHeadingIdx doc with
  | none => ""
  | some ri =>
    let all := doc.subsOf
    let base := headingLevel (nodeAt all ri)
    let range := ((all.drop (ri + 1)).filter Node.isElemB).takeWhile
      (fun n => !(tagStartsH n && decide (headingLevel n ≤ base)))
    let lines := (range.map sigNodeLines).flatten
    pyStrip (String.intercalate "\n" (dedupFirst lines))

/-- Embedding of `extract_signature_rows` (lines 421-423). -/
def extractSignatureRows (doc : Node) (hero : String) : List SignatureRow :=
  let d := extractSignatureItemDesc doc
  if d ≠ "" then [⟨hero, d⟩] else []

/-! ## Furniture set bonuses (scraper_service.py lines 315-370) -/

/-- Furniture entry (line 369). -/
structure FurnitureRow where
  hero : String
  name : String
  description : String
  icon : String
deriving DecidableEq

/-- Container condition of the furniture icon search (lines 344 and 354):
a truthy class list one of whose tokens contains "tright", or a figure. -/
def furnContainerOk (n : Node) : Bool :=
  (!(n.classesOf.isEmpty) && n.classesOf.any (fun c => substrOf "tright" c))
    || n.tagOf == "figure"

/-- The furniture icon search (lines 336-358): image inside a qualifying
container before the name heading, else inside the heading, else inside a
qualifying container after it, else empty. -/
def furnitureIcon (all : List Node) (j : Nat) : String :=
  let backward :=
    match lastIdxBefore all j (fun n => n.tagOf == "figure" || n.tagOf == "div") with
    | none => none
    | some k =>
      if furnContainerOk (nodeAt all k) then
        findFirstDesc (nodeAt all k) (fun n => n.tagOf == "img")
      else none
  match backward with
  | some img => imgSrcOf img
  | none =>
    match findFirstDesc (nodeAt all j) (fun n => n.tagOf == "img") with
    | some img => imgSrcOf img
    | none =>
      let forward :=
        match firstIdxFrom all (j + 1) (fun n => n.tagOf == "figure" || n.tagOf == "div") with
        | none => none
        | some k2 =>
          if furnContainerOk (nodeAt all k2) then
            findFirstDesc (nodeAt all k2) (fun n => n.tagOf == "img")
          else none
      match forward with
      | some img => imgSrcOf img
      | none => ""

/-- Embedding of `extract_furniture_rows` (lines 315-370).  The name heading
is the first h3/h4 after the section heading (the source's
`find_previous(lambda t: t is root)` guard is always satisfied because the
root heading precedes every scanned h3/h4); description lines come from the
first list after it. -/
def extractFurnitureRows (doc : Node) (hero : String) : List FurnitureRow :=
  match extractSectionIdx doc ["Furniture Set Bonuses", "Furniture"] with
  | none => []
  | some ri =>
    let all := doc.subsOf
    let nameHdrIdx := firstIdxFrom all (ri + 1) (fun n => n.tagOf == "h3" || n.tagOf == "h4")
    let name :=
      match nameHdrIdx with
      | some j => tclean (getTextSep " " (nodeAt all j))
      | none => ""
    let icon :=
      match nameHdrIdx with
      | some j => furnitureIcon all j
      | none => ""
    let ulIdx :=
      match nameHdrIdx with
      | some j => firstIdxFrom all (j + 1) (fun n => n.tagOf == "ul")
      | none => firstIdxFrom all (ri + 1) (fun n => n.tagOf == "ul")
    let descLines :=
      match ulIdx with
      | some ui =>
        (((nodeAt all ui).descOf.filter (fun n => n.tagOf == "li")).map
          (fun li => tclean (getTextSep " " li))).filter (fun t => t ≠ "")
      | none => []
    let desc := String.intercalate "\n" descLines
    if name ≠ "" || desc ≠ "" then
      [⟨hero, if name == "" then "Furniture" else name, desc, icon⟩]
    else []

/-! ## HeroRecordAssembler (scraper_service.py lines 427-509, `scrape_page`) -/

/-- BeautifulSoup `get_text(strip=True)` with no separator. -/
def getTextStripNoSep (n : Node) : String :=
  String.join ((n.textsOf.map pyStrip).filter (fun t => t ≠ ""))

/-- Assembled profile record (lines 449-470). -/
structure HeroRow where
  icon : String
  name : String
  faction : String
  typ : String
  cls : String
  rarity : String
  role : String
  primaryRole : String
  secondaryRole : String
  overallEN : String
  overallVN : String
  personalityEN : String
  personalityVN : String
  backgroundEN : String
  backgroundVN : String
  quotesEN : String
  quotesVN : String
  triviaEN : String
  triviaVN : String
  url : String
deriving DecidableEq

/-- Skill sheet row after the `_EN`/`_VN` renaming (lines 473-480). -/
structure SkillOut where
  hero : String
  unlockLevel : String
  skillName : String
  typ : String
  descriptionEN : String
  descriptionVN : String
  icon : String
deriving DecidableEq

/-- Engraving sheet row after the renaming (lines 482-486). -/
structure EngravingOut where
  hero : String
  skillName : String
  unlockLevel : String
  descriptionEN : String
  descriptionVN : String
  icon : String
deriving DecidableEq

/-- Signature sheet row after the renaming (lines 488-492). -/
structure SignatureOut where
  hero : String
  descriptionEN : String
  descriptionVN : String
deriving DecidableEq

/-- Furniture sheet row after the renaming (lines 494-498). -/
structure FurnitureOut where
  hero : String
  name : String
  descriptionEN : String
  descriptionVN : String
  icon : String
deriving DecidableEq

/-- Embedding of the body of `scrape_page` (lines 429-504) on a parsed
document: the header title, infobox map, roles and infobox icon are read from
the input tree; the intro extraction then mutates the tree in place, and the
remaining extractors run on the mutated tree, exactly as the source's shared
`soup` object threads through the call sequence. -/
def scrapeBody (url : String) (soup : Node) :
    HeroRow × List SkillOut × List EngravingOut × List SignatureOut × List FurnitureOut :=
  let title :=
    match (soup.subsOf).find? (fun n => n.isElemB && (n.getAttr "id") == some "firstHeading") with
    | some e => getTextStripNoSep e
    | none => "Unknown"
  let infMap := parseInfoboxMap soup
  let roles := extractRolesFromInfobox infMap
  let icon :=
    match (soup.subsOf).find? (fun n => n.isElemB && n.hasClassTok "portable-infobox") with
    | some ibox =>
      match findFirstDesc ibox (fun n => n.tagOf == "img") with
      | some img => if img.hasAttr "src" then (img.getAttr "src").getD "" else ""
      | none => ""
    | none => ""
  let ip := extractIntroPair soup
  let intro := ip.1
  let soup2 := ip.2
  let personality := extractSectionText soup2 ["Personality"]
  let heroRow : HeroRow :=
    { icon := icon
      name := title
      faction := mapGet infMap "Faction"
      typ := mapGet infMap "Type"
      cls := mapGet infMap "Class"
      rarity := mapGet infMap "Rarity"
      role := mapGet infMap "Role"
      primaryRole := roles.1
      secondaryRole := roles.2
      overallEN := pyStrip (intro ++ "\n\n" ++ personality)
      overallVN := ""
      personalityEN := personality
      personalityVN := ""
      backgroundEN := extractSectionText soup2 ["Background", "Story"]
      backgroundVN := ""
      quotesEN := extractQuotes soup2
      quotesVN := ""
      triviaEN := extractSectionText soup2 ["Trivia"]
      triviaVN := ""
      url := url }
  let skills := (extractSkills soup2).map (fun s =>
    { hero := title, unlockLevel := s.unlockLevel, skillName := s.skillName,
      typ := s.typ, descriptionEN := s.description, descriptionVN := "",
      icon := s.icon : SkillOut })
  let eng := (extractEngravingRows soup2 title).map (fun r =>
    { hero := r.hero, skillName := r.skillName, unlockLevel := r.unlockLevel,
      descriptionEN := r.description, descriptionVN := "", icon := r.icon : EngravingOut })
  let sig := (extractSignatureRows soup2 title).map (fun r =>
    { hero := r.hero, descriptionEN := r.description, descriptionVN := "" : SignatureOut })
  let furn := (extractFurnitureRows soup2 title).map (fun r =>
    { hero := r.hero, name := r.name, descriptionEN := r.description,
      descriptionVN := "", icon := r.icon : FurnitureOut })
  (heroRow, skills, eng, sig, furn)

/-- Embedding of `scrape_page` (lines 427-509) including its try/except
boundary: the fetch-and-parse step is the one failing operation (the body is
total on a parsed tree), and any exception is converted into the null-record
sentinel. -/
def scrapePage (url : String) (fetch : Except String Node) :
    Option HeroRow × List SkillOut × List EngravingOut × List SignatureOut × List FurnitureOut :=
  match fetch with
  | .ok soup =>
    let r := scrapeBody url soup
    (some r.1, r.2.1, r.2.2.1, r.2.2.2.1, r.2.2.2.2)
  | .error _ => (none, [], [], [], [])

/-- Concrete document whose infobox image source carries doubled whitespace. -/
def sampleIconDoc : Node :=
  Node.elem "html" []
    [Node.elem "aside" [("class", "portable-infobox")]
      [Node.elem "img" [("src", "https://img.example.org/a  b.png")] []]]

/-- Normal-form invariant of the infobox map's values. -/
def NormMap (m : List (String × String)) : Prop :=
  ∀ p ∈ m, isNormWs p.2.data = true

/-! ## Theorems -/

theorem goodRun_cons_nonws {c : Char} {rest : List Char} (hc : pyWS c = false) :
    goodRun (c :: rest) = goodRun rest := by
  simp [goodRun, hc]

theorem goodRun_cons_ws_nil {c : Char} (hc : pyWS c = true) :
    goodRun [c] = (c == ' ') := by
  simp [goodRun, hc]

theorem goodRun_cons_ws_cons {c d : Char} {tl : List Char} (hc : pyWS c = true) :
    goodRun (c :: d :: tl) = (((c == ' ') && !(pyWS d)) && goodRun (d :: tl)) := by
  simp [goodRun, hc, Bool.and_assoc]

theorem wsRunsOk_cons_nonws {c : Char} {rest : List Char} (hc : pyWS c = false) :
    wsRunsOk (c :: rest) = wsRunsOk rest := by
  simp [wsRunsOk, hc]

theorem wsRunsOk_cons_ws_cons {c d : Char} {tl : List Char} (hc : pyWS c = true) :
    wsRunsOk (c :: d :: tl) = (((c == ' ') && !(pyWS d)) && wsRunsOk (d :: tl)) := by
  simp [wsRunsOk, hc, Bool.and_assoc]

theorem goodRun_collapseWS (l : List Char) :
    ∀ b, goodRun (collapseWS b l) = true ∧ (b = true → headNonWS (collapseWS b l) = true) := by
  induction l with
  | nil => intro b; simp [collapseWS, goodRun, headNonWS]
  | cons c rest ih =>
    intro b
    cases hc : pyWS c with
    | true =>
      cases b with
      | true =>
        have := ih true
        simpa [collapseWS, hc] using this
      | false =>
        have h1 := (ih true).1
        have h2 := (ih true).2 rfl
        have hstep : collapseWS false (c :: rest) = ' ' :: collapseWS true rest := by
          simp [collapseWS, hc]
        rw [hstep]
        refine ⟨?_, by intro hcontra; exact absurd hcontra (by simp)⟩
        cases hrec : collapseWS true rest with
        | nil => decide
        | cons d tl =>
          rw [hrec] at h1 h2
          have hd : pyWS d = false := by
            simp only [headNonWS, List.head?] at h2
            simpa using h2
          rw [goodRun_cons_ws_cons (by decide)]
          simp [hd, h1]
    | false =>
      have hstep : collapseWS b (c :: rest) = c :: collapseWS false rest := by
        simp [collapseWS, hc]
      rw [hstep]
      refine ⟨?_, ?_⟩
      · rw [goodRun_cons_nonws hc]
        exact (ih false).1
      · intro _
        simp [headNonWS, hc]

theorem goodRun_tail {c : Char} {rest : List Char} (h : goodRun (c :: rest) = true) :
    goodRun rest = true := by
  simp only [goodRun, Bool.and_eq_true] at h
  exact h.2

theorem goodRun_dropWhile {l : List Char} (h : goodRun l = true) :
    goodRun (l.dropWhile pyWS) = true := by
  induction l with
  | nil => simpa using h
  | cons c rest ih =>
    cases hc : pyWS c with
    | true =>
      rw [List.dropWhile_cons_of_pos hc]
      exact ih (goodRun_tail h)
    | false =>
      rw [List.dropWhile_cons_of_neg (by simp [hc])]
      exact h

theorem headNonWS_dropWhile (l : List Char) : headNonWS (l.dropWhile pyWS) = true := by
  induction l with
  | nil => simp [headNonWS]
  | cons c rest ih =>
    cases hc : pyWS c with
    | true => rw [List.dropWhile_cons_of_pos hc]; exact ih
    | false =>
      rw [List.dropWhile_cons_of_neg (by simp [hc])]
      simp [headNonWS, hc]

theorem trimEndWS_nil_of_nil : trimEndWS [] = [] := rfl

theorem trimEndWS_ok {l : List Char} (h : goodRun l = true) :
    wsRunsOk (trimEndWS l) = true ∧
      (trimEndWS l = [] ∨ (trimEndWS l).head? = l.head?) := by
  induction l with
  | nil => simp [trimEndWS, wsRunsOk]
  | cons c rest ih =>
    have hrest := ih (goodRun_tail h)
    cases he : ((trimEndWS rest).isEmpty && pyWS c) with
    | true =>
      have hz : trimEndWS (c :: rest) = [] := by
        simp only [trimEndWS]
        rw [if_pos he]
      rw [hz]
      exact ⟨rfl, Or.inl rfl⟩
    | false =>
      have hne : trimEndWS (c :: rest) = c :: trimEndWS rest := by
        simp only [trimEndWS]
        rw [if_neg (by simp [he])]
      rw [hne]
      refine ⟨?_, Or.inr (by simp)⟩
      cases hemp : trimEndWS rest with
      | nil =>
        have hc : pyWS c = false := by
          cases hcc : pyWS c with
          | false => rfl
          | true =>
            exfalso
            rw [hemp] at he
            simp [hcc] at he
        rw [wsRunsOk_cons_nonws hc]
        rfl
      | cons e tl2 =>
        rw [hemp] at hrest
        cases hc : pyWS c with
        | false =>
          rw [wsRunsOk_cons_nonws hc]
          exact hrest.1
        | true =>
          have hrestne : rest ≠ [] := by
            intro hr
            rw [hr] at hemp
            exact absurd hemp (by simp [trimEndWS])
          obtain ⟨d, tl, hdt⟩ := List.exists_cons_of_ne_nil hrestne
          rw [hdt] at h
          rw [goodRun_cons_ws_cons hc] at h
          simp only [Bool.and_eq_true] at h
          have hcsp : (c == ' ') = true := h.1.1
          have hd : pyWS d = false := by simpa using h.1.2
          have hed : e = d := by
            rcases hrest.2 with hcase | hcase
            · exact absurd hcase (by simp)
            · rw [hdt] at hcase
              simpa using hcase
          subst hed
          rw [wsRunsOk_cons_ws_cons hc]
          simp [hcsp, hd, hrest.1]

theorem isNormWs_tcleanData (l : List Char) : isNormWs (tcleanData l) = true := by
  have hgr := (goodRun_collapseWS l false).1
  have hgd := goodRun_dropWhile hgr
  have hhd := headNonWS_dropWhile (collapseWS false l)
  have htr := trimEndWS_ok hgd
  unfold tcleanData pyStripData
  unfold isNormWs
  rw [Bool.and_eq_true]
  refine ⟨?_, htr.1⟩
  rcases htr.2 with hcase | hcase
  · simp [hcase, headNonWS]
  · unfold headNonWS at hhd ⊢
    rw [hcase]
    exact hhd

/-- Whitespace-normal form of the `tclean` output: the single general fact
behind the spec's storage invariant. -/
theorem isNormWs_tclean (s : String) : isNormWs (tclean s).data = true :=
  isNormWs_tcleanData s.data

theorem findFirstIdx_eq_none {α : Type} {p : α → Bool} {l : List α}
    (h : ∀ x ∈ l, p x = false) : findFirstIdx p l = none := by
  induction l with
  | nil => rfl
  | cons n rest ih =>
    have hn := h n (List.mem_cons_self n rest)
    simp only [findFirstIdx, hn, Bool.false_eq_true, if_false]
    rw [ih (fun x hx => h x (List.mem_cons_of_mem n hx))]
    rfl

theorem findFirstIdx_isSome {α : Type} {p : α → Bool} {l : List α} {x : α}
    (hx : x ∈ l) (hp : p x = true) : (findFirstIdx p l).isSome = true := by
  induction l with
  | nil => cases hx
  | cons n rest ih =>
    cases hpn : p n with
    | true => simp [findFirstIdx, hpn]
    | false =>
      rcases List.mem_cons.mp hx with heq | hmem
      · subst heq; rw [hpn] at hp; cases hp
      · have := ih hmem
        simp only [findFirstIdx, hpn, Bool.false_eq_true, if_false]
        cases hrec : findFirstIdx p rest with
        | none => rw [hrec] at this; cases this
        | some k => simp

theorem findFirstIdx_spec {α : Type} {p : α → Bool} {l : List α} {j : Nat} (d : α)
    (h : findFirstIdx p l = some j) :
    p (l.getD j d) = true ∧ ∀ k, k < j → p (l.getD k d) = false := by
  induction l generalizing j with
  | nil => cases h
  | cons n rest ih =>
    cases hpn : p n with
    | true =>
      simp only [findFirstIdx, hpn, if_true] at h
      have hj : j = 0 := by injection h; omega
      subst hj
      exact ⟨hpn, fun k hk => absurd hk (by omega)⟩
    | false =>
      simp only [findFirstIdx, hpn, Bool.false_eq_true, if_false] at h
      cases hrec : findFirstIdx p rest with
      | none => rw [hrec] at h; cases h
      | some m =>
        rw [hrec] at h
        have hj : j = m + 1 := by simpa using h.symm
        subst hj
        have hspec := ih hrec
        refine ⟨hspec.1, ?_⟩
        intro k hk
        cases k with
        | zero => simpa using hpn
        | succ k2 => exact hspec.2 k2 (by omega)

theorem isSubstr_self (l : List Char) : isSubstr l l = true := by
  cases l with
  | nil => rfl
  | cons c t =>
    simp only [isSubstr, Bool.or_eq_true]
    exact Or.inl (by simp [List.isPrefixOf_iff_prefix])

/-- Claim C8 counterexample: with the empty candidate-title set the joined
regex is the empty pattern, which matches every heading, so a document with a
heading returns a match even though no heading's text matches any candidate. -/
theorem c8_section_counterexample :
    noHeadingMatches [] (Node.elem "body" [] [Node.elem "h2" [] [Node.text "Stuff"]]) = true ∧
      extractSectionIdx (Node.elem "body" [] [Node.elem "h2" [] [Node.text "Stuff"]]) [] ≠ none := by
  constructor
  · rfl
  · decide

/-- Claim C8 (amended): for every NONEMPTY candidate-title set, a document
with no level-2/3/4 heading matching a candidate case-insensitively yields
"none", and a document with a level-2 heading exactly equal to a candidate
yields the first matching heading in document order. -/
theorem c8_section_locator (titles : List String) (doc : Node)
    (hne : titles ≠ []) :
    (noHeadingMatches titles doc = true → extractSectionIdx doc titles = none) ∧
      (hasExactH2 titles doc = true →
        ∃ j, extractSectionIdx doc titles = some j ∧
          sectionPred titles (nodeAt doc.subsOf j) = true ∧
          ∀ k, k < j → sectionPred titles (nodeAt doc.subsOf k) = false) := by
  constructor
  · intro hno
    apply findFirstIdx_eq_none
    intro x hx
    cases hh : isH234 x with
    | false => simp [sectionPred, hh]
    | true =>
      have hxall := (List.all_eq_true.mp hno) x (List.mem_filter.mpr ⟨hx, hh⟩)
      have hanyf : (titles.any (fun c => substrCI c (getTextSep " " x))) = false := by
        simpa using hxall
      simp [sectionPred, hh, titlesMatch, hanyf, hne]
  · intro hex
    obtain ⟨x, hx, hpx⟩ := List.any_eq_true.mp hex
    rw [Bool.and_eq_true] at hpx
    have hxm : sectionPred titles x = true := by
      have htag : x.tagOf = "h2" := by simpa using hpx.1
      have hc : getTextSep " " x ∈ titles := by
        simpa using hpx.2
      have hsub : titlesMatch titles (getTextSep " " x) = true := by
        simp only [titlesMatch, Bool.or_eq_true, List.any_eq_true]
        right
        exact ⟨_, hc, isSubstr_self _⟩
      simp [sectionPred, isH234, htag, hsub]
    have hsome := findFirstIdx_isSome hx hxm
    cases hfi : findFirstIdx (sectionPred titles) doc.subsOf with
    | none => rw [hfi] at hsome; cases hsome
    | some j =>
      have hspec := findFirstIdx_spec (Node.text "") hfi
      exact ⟨j, hfi, hspec.1, hspec.2⟩

/-- Claim C8 witness: the amended theorem applied at a concrete title set and
two concrete documents. -/
theorem c8_section_locator_witness :
    extractSectionIdx (Node.elem "body" [] [Node.elem "p" [] [Node.text "hi"]]) ["Trivia"] = none ∧
      ∃ j, extractSectionIdx
          (Node.elem "body" [] [Node.elem "h2" [] [Node.text "Trivia"]]) ["Trivia"] = some j := by
  constructor
  · exact (c8_section_locator ["Trivia"]
      (Node.elem "body" [] [Node.elem "p" [] [Node.text "hi"]]) (by decide)).1 (by decide)
  · obtain ⟨j, hj, -, -⟩ := (c8_section_locator ["Trivia"]
      (Node.elem "body" [] [Node.elem "h2" [] [Node.text "Trivia"]]) (by decide)).2 (by decide)
    exact ⟨j, hj⟩

theorem dropWhile_pyWS_length_le (l : List Char) : (l.dropWhile pyWS).length ≤ l.length := by
  induction l with
  | nil => simp
  | cons c rest ih =>
    cases hc : pyWS c with
    | true =>
      rw [List.dropWhile_cons_of_pos hc]
      exact Nat.le_trans ih (Nat.le_succ _)
    | false =>
      rw [List.dropWhile_cons_of_neg (by simp [hc])]

theorem noBadIn_isBadFrag_false {n : Node} (h : noBadIn n = true) : isBadFrag n = false := by
  cases n with
  | text s => rfl
  | elem t a cs =>
    simp only [noBadIn, Bool.and_eq_true] at h
    simpa using h.1

theorem noBadIn_children {t : String} {a : List (String × String)} {cs : List Node}
    (h : noBadIn (.elem t a cs) = true) : noBadInList cs = true := by
  simp only [noBadIn, Bool.and_eq_true] at h
  exact h.2

mutual

theorem stripBad_id : ∀ n : Node, noBadIn n = true → stripBad n = n
  | .text _, _ => rfl
  | .elem t a cs, h => by
    simp only [stripBad]
    rw [stripBadList_id cs (noBadIn_children h)]

theorem stripBadList_id : ∀ cs : List Node, noBadInList cs = true → stripBadList cs = cs
  | [], _ => rfl
  | c :: cs, h => by
    have hc : noBadIn c = true := by
      simp only [noBadInList, Bool.and_eq_true] at h; exact h.1
    have hcs : noBadInList cs = true := by
      simp only [noBadInList, Bool.and_eq_true] at h; exact h.2
    simp only [stripBadList, noBadIn_isBadFrag_false hc, Bool.false_eq_true, if_false]
    rw [stripBad_id c hc, stripBadList_id cs hcs]
    rfl

end

theorem introLoop_id {l : List Node} (h : noBadInList l = true) : (introLoop l).2 = l := by
  induction l with
  | nil => rfl
  | cons n rest ih =>
    have hn : noBadIn n = true := by
      simp only [noBadInList, Bool.and_eq_true] at h; exact h.1
    have hrest : noBadInList rest = true := by
      simp only [noBadInList, Bool.and_eq_true] at h; exact h.2
    simp only [introLoop]
    by_cases h1 : isBlankText n = true
    · simp [h1, ih hrest]
    · simp only [h1, Bool.false_eq_true, if_false]
      by_cases h2 : isAsideOrInfoboxDiv n = true
      · simp [h2, ih hrest]
      · simp only [h2, Bool.false_eq_true, if_false]
        by_cases h3 : n.tagOf == "p"
        · simp [h3, stripBad_id n hn, ih hrest]
        · simp only [h3, Bool.false_eq_true, if_false]
          by_cases h4 : n.tagOf == "h2"
          · simp [h4]
          · simp only [h4, Bool.false_eq_true, if_false]
            by_cases h5 : isTocDiv n = true
            · simp [h5]
            · simp [h5, ih hrest]

mutual

theorem introGo_id : ∀ n : Node, noBadIn n = true → (introGo n).1 = n
  | .text _, _ => rfl
  | .elem t a cs, h => by
    simp only [introGo]
    by_cases hc : isContentDiv (.elem t a cs) = true
    · rw [if_pos hc]
      simp only []
      rw [introLoop_id (noBadIn_children h)]
    · rw [if_neg hc]
      simp only []
      rw [introGoList_id cs (noBadIn_children h)]

theorem introGoList_id : ∀ cs : List Node, noBadInList cs = true → (introGoList cs).1 = cs
  | [], _ => rfl
  | c :: cs, h => by
    have hc : noBadIn c = true := by
      simp only [noBadInList, Bool.and_eq_true] at h; exact h.1
    have hcs : noBadInList cs = true := by
      simp only [noBadInList, Bool.and_eq_true] at h; exact h.2
    simp only [introGoList]
    cases hr : (introGo c).2 with
    | some ts => simp only []; rw [introGo_id c hc]
    | none => simp only []; rw [introGoList_id cs hcs]

end

/-- Claim C2 counterexample: on a document whose content container holds a
paragraph with a nested aside, the intro extractor removes the aside from the
shared tree — the returned tree differs from the input. -/
theorem c2_intro_counterexample :
    (extractIntroPair (Node.elem "html" []
        [Node.elem "div" [("class", "mw-parser-output")]
          [Node.elem "p" [] [Node.text "Intro ", Node.elem "aside" [] [Node.text "junk"]]]])).2
      ≠ Node.elem "html" []
        [Node.elem "div" [("class", "mw-parser-output")]
          [Node.elem "p" [] [Node.text "Intro ", Node.elem "aside" [] [Node.text "junk"]]]] := by
  intro h
  have hc := congrArg Node.countOf h
  revert hc
  decide

/-- Claim C2 (amended): the intro extractor mutates the shared input tree,
removing nested aside / portable-infobox fragments from the paragraphs it
processes; the input tree is returned unchanged whenever the document
contains no such fragment at all. -/
theorem c2_intro_no_mutation (doc : Node) (h : noBadIn doc = true) :
    (extractIntroPair doc).2 = doc := by
  cases doc with
  | text s => rfl
  | elem t a cs =>
    simp only [extractIntroPair]
    rw [introGoList_id cs (noBadIn_children h)]

/-- Claim C2 witness: the amended theorem applied to a concrete clean
document. -/
theorem c2_intro_no_mutation_witness :
    (extractIntroPair (Node.elem "html" []
        [Node.elem "div" [("class", "mw-parser-output")]
          [Node.elem "p" [] [Node.text "Intro"]]])).2
      = Node.elem "html" []
        [Node.elem "div" [("class", "mw-parser-output")]
          [Node.elem "p" [] [Node.text "Intro"]]] :=
  c2_intro_no_mutation _ (by decide)

theorem dedupFirstGo_sublist (seen : List String) (l : List String) :
    (dedupFirstGo seen l).Sublist l := by
  induction l generalizing seen with
  | nil => simp [dedupFirstGo]
  | cons q rest ih =>
    simp only [dedupFirstGo]
    by_cases hq : seen.contains q = true
    · simp only [hq, if_true]
      exact (ih seen).cons q
    · simp only [hq, Bool.false_eq_true, if_false]
      exact (ih (q :: seen)).cons₂ q

theorem dedupFirstGo_mem (seen : List String) (l : List String) (x : String) :
    x ∈ dedupFirstGo seen l ↔ (x ∈ l ∧ x ∉ seen) := by
  induction l generalizing seen with
  | nil => simp [dedupFirstGo]
  | cons q rest ih =>
    simp only [dedupFirstGo]
    by_cases hq : seen.contains q = true
    · have hqs : q ∈ seen := by simpa using hq
      simp only [hq, if_true, ih, List.mem_cons]
      constructor
      · rintro ⟨hx, hns⟩
        exact ⟨Or.inr hx, hns⟩
      · rintro ⟨hor, hns⟩
        rcases hor with heq | hmem
        · subst heq; exact absurd hqs hns
        · exact ⟨hmem, hns⟩
    · have hqs : q ∉ seen := by simpa using hq
      simp only [hq, Bool.false_eq_true, if_false, List.mem_cons, ih]
      constructor
      · rintro (heq | ⟨hx, hns⟩)
        · subst heq; exact ⟨Or.inl rfl, hqs⟩
        · refine ⟨Or.inr hx, ?_⟩
          intro hc
          exact hns (Or.inr hc)
      · rintro ⟨hor, hns⟩
        by_cases hx : x = q
        · exact Or.inl hx
        · rcases hor with heq | hmem
          · exact absurd heq hx
          · refine Or.inr ⟨hmem, ?_⟩
            intro hc
            rcases hc with h1 | h2
            · exact hx h1
            · exact hns h2

theorem dedupFirstGo_nodup (seen : List String) (l : List String) :
    (dedupFirstGo seen l).Nodup := by
  induction l generalizing seen with
  | nil => simp [dedupFirstGo]
  | cons q rest ih =>
    simp only [dedupFirstGo]
    by_cases hq : seen.contains q = true
    · simp only [hq, if_true]
      exact ih seen
    · simp only [hq, Bool.false_eq_true, if_false]
      refine List.nodup_cons.mpr ⟨?_, ih (q :: seen)⟩
      intro hc
      have := (dedupFirstGo_mem (q :: seen) rest q).mp hc
      exact this.2 (List.mem_cons_self q seen)

/-- Claim C7: quote extraction concatenates voice lines before other quotes
and deduplicates by exact text keeping first occurrences, so the result is an
order-preserving duplicate-free sublist of the concatenation with the same
members; on a concrete document with the line "For glory!" in both groups,
the line appears exactly once, at its first-seen position. -/
theorem c7_quotes_dedup (doc : Node) :
    (quoteLinesOf doc).Sublist
        (gatherByIdOrText doc "Voice_Lines" "Voice Lines"
          ++ gatherByIdOrText doc "Other_Quotes" "Other Quotes") ∧
      (∀ q, q ∈ quoteLinesOf doc ↔
        q ∈ gatherByIdOrText doc "Voice_Lines" "Voice Lines"
          ++ gatherByIdOrText doc "Other_Quotes" "Other Quotes") ∧
      (quoteLinesOf doc).Nodup ∧
      quoteLinesOf (Node.elem "html" []
        [Node.elem "h2" []
          [Node.elem "span" [("class", "mw-headline"), ("id", "Voice_Lines")]
            [Node.text "Voice Lines"]],
         Node.elem "ul" []
          [Node.elem "li" [] [Node.text "Hello!"],
           Node.elem "li" [] [Node.text "For glory!"]],
         Node.elem "h2" []
          [Node.elem "span" [("class", "mw-headline"), ("id", "Other_Quotes")]
            [Node.text "Other Quotes"]],
         Node.elem "ul" []
          [Node.elem "li" [] [Node.text "For glory!"]]])
        = ["Hello!", "For glory!"] := by
  refine ⟨dedupFirstGo_sublist [] _, ?_, dedupFirstGo_nodup [] _, by decide⟩
  intro q
  rw [quoteLinesOf, dedupFirst, dedupFirstGo_mem]
  simp

/-- Claim C5: the box fallback is used exactly when the table strategy yields
zero entries; on the concrete document whose Skills table lacks a
"description" column, that table is disqualified and the box extractor's
(non-empty) results are returned. -/
theorem c5_skills_fallback (doc : Node) :
    (extractSkillsFromTable doc = [] → extractSkills doc = extractSkillsBoxes doc) ∧
      (extractSkillsFromTable doc ≠ [] → extractSkills doc = extractSkillsFromTable doc) ∧
      (extractSkillsFromTable sampleSkillsDoc = [] ∧
        extractSkills sampleSkillsDoc = extractSkillsBoxes sampleSkillsDoc ∧
        extractSkillsBoxes sampleSkillsDoc
          = [⟨"", "Slash", "", "Cuts things.", ""⟩]) := by
  refine ⟨?_, ?_, by decide, by decide, by decide⟩
  · intro h
    simp [extractSkills, h]
  · intro h
    have hne : (extractSkillsFromTable doc).isEmpty = false := by
      cases hcase : extractSkillsFromTable doc with
      | nil => exact absurd hcase h
      | cons a l => rfl
    simp [extractSkills, hne]

/-- Claim C5 witness: the fallback equation applied at the concrete document,
its hypothesis discharged by evaluation. -/
theorem c5_skills_fallback_witness :
    extractSkills sampleSkillsDoc = extractSkillsBoxes sampleSkillsDoc :=
  (c5_skills_fallback sampleSkillsDoc).1 (by decide)

/-- Claim C9 (code bug): `unlock_idx = idx_of("unlock") or idx_of("level")`
(line 285) treats a 0 column index as falsy, so when the "unlock" column is
the FIRST column the produced row's unlock value is empty instead of being
read from that column; with the unlock column at a non-zero index the value
"30" is read as the claim describes (and as the skills extractor's
resolution rule does). -/
theorem c9_engraving_unlock_bug :
    extractEngravingRows sampleEngravingDoc "Hero"
        = [⟨"Hero", "Power", "", "Gains power.", ""⟩] ∧
      extractEngravingRows sampleEngravingDoc "Hero"
        ≠ [⟨"Hero", "Power", "30", "Gains power.", ""⟩] ∧
      extractEngravingRows sampleEngravingDoc2 "Hero"
        = [⟨"Hero", "Power", "30", "Gains power.", ""⟩] := by
  refine ⟨by decide, by decide, by decide⟩

theorem foldl_preserves {α β : Type} {P : β → Prop} {f : β → α → β}
    (hf : ∀ b a, P b → P (f b a)) :
    ∀ (l : List α) (b : β), P b → P (l.foldl f b) := by
  intro l
  induction l with
  | nil => intro b hb; exact hb
  | cons a l ih => intro b hb; exact ih (f b a) (hf b a hb)

theorem processAnchor_inv (base : String) (st : List String × List String) (a : Node)
    (h : LinkInv st) : LinkInv (processAnchor base st a) := by
  cases h1 : (tclean (getTextSep " " a) == "") with
  | true => simp only [processAnchor, h1, if_true]; exact h
  | false =>
    cases h2 : (!(strStarts ((a.getAttr "href").getD "") "/wiki/")) with
    | true => simp only [processAnchor, h1, h2, Bool.false_eq_true, if_false, if_true]; exact h
    | false =>
      cases h3 : (st.1.contains (urljoinRooted base ((a.getAttr "href").getD ""))) with
      | true =>
        simp only [processAnchor, h1, h2, h3, Bool.false_eq_true, if_false, if_true]
        exact h
      | false =>
        cases h4 : ((removeWikiGo ((a.getAttr "href").getD "").data).contains ':') with
        | true =>
          simp only [processAnchor, h1, h2, h3, h4, Bool.false_eq_true, if_false, if_true]
          exact h
        | false =>
          cases h5 : (ignoredPaths.any
              (fun p => strStarts ((a.getAttr "href").getD "") p)) with
          | true =>
            simp only [processAnchor, h1, h2, h3, h4, h5, Bool.false_eq_true, if_false, if_true]
            exact h
          | false =>
            simp only [processAnchor, h1, h2, h3, h4, h5, Bool.false_eq_true, if_false]
            have habs : urljoinRooted base ((a.getAttr "href").getD "") ∉ st.1 := by
              simpa using h3
            constructor
            · refine List.Nodup.append h.1 (by simp) ?_
              intro x hx1 hx2
              have hxe : x = urljoinRooted base ((a.getAttr "href").getD "") := by
                simpa using hx2
              subst hxe
              exact habs (h.2 _ hx1)
            · intro x hx
              rcases List.mem_append.mp hx with hx1 | hx2
              · exact List.mem_cons_of_mem _ (h.2 _ hx1)
              · have hxe : x = urljoinRooted base ((a.getAttr "href").getD "") := by
                  simpa using hx2
                subst hxe
                exact List.mem_cons_self _ _

theorem linkFoldStep_inv (base : String) (st : List String × List String) (node : Node)
    (h : LinkInv st) : LinkInv (linkFoldStep base st node) :=
  foldl_preserves (fun b a hb => processAnchor_inv base b a hb) (anchorsUnder node) st h

/-- Claim C6: the link scanner deduplicates by resolved absolute URL keeping
first occurrences (the output is duplicate-free); a document without a
"Heroes" heading yields the empty list; and on the concrete faction page the
two same-URL anchors yield one entry while the namespaced link and the
Heroes index link are excluded. -/
theorem c6_hero_links (base : String) (doc : Node) :
    (extractHeroLinksDoc base doc).Nodup ∧
      (findHeroesSectionIdx doc = none → extractHeroLinksDoc base doc = []) ∧
      extractHeroLinksDoc "https://wiki.example.org/wiki/Light" sampleFactionDoc
        = ["https://wiki.example.org/wiki/Alice"] := by
  refine ⟨?_, ?_, by decide⟩
  · unfold extractHeroLinksDoc
    cases hs : findHeroesSectionIdx doc with
    | none => simp
    | some ri =>
      have hinv : LinkInv ((linkNodesRange doc ri).foldl (linkFoldStep base) ([], [])) :=
        foldl_preserves (fun b a hb => linkFoldStep_inv base b a hb) _ _ ⟨List.nodup_nil, by simp⟩
      exact hinv.1
  · intro hnone
    unfold extractHeroLinksDoc
    rw [hnone]

/-- Claim C6 witness: the no-heading case discharged on a concrete document,
via the main theorem. -/
theorem c6_hero_links_witness :
    extractHeroLinksDoc "https://wiki.example.org/wiki/Light"
        (Node.elem "html" [] [Node.elem "p" [] [Node.text "hi"]]) = [] :=
  (c6_hero_links "https://wiki.example.org/wiki/Light"
    (Node.elem "html" [] [Node.elem "p" [] [Node.text "hi"]])).2.1 (by decide)

theorem processAnchor_sound (base : String) (st : List String × List String) (a : Node)
    (h : LinkSound base st) : LinkSound base (processAnchor base st a) := by
  cases h1 : (tclean (getTextSep " " a) == "") with
  | true => simp only [processAnchor, h1, if_true]; exact h
  | false =>
    cases h2 : (!(strStarts ((a.getAttr "href").getD "") "/wiki/")) with
    | true => simp only [processAnchor, h1, h2, Bool.false_eq_true, if_false, if_true]; exact h
    | false =>
      cases h3 : (st.1.contains (urljoinRooted base ((a.getAttr "href").getD ""))) with
      | true =>
        simp only [processAnchor, h1, h2, h3, Bool.false_eq_true, if_false, if_true]
        exact h
      | false =>
        cases h4 : ((removeWikiGo ((a.getAttr "href").getD "").data).contains ':') with
        | true =>
          simp only [processAnchor, h1, h2, h3, h4, Bool.false_eq_true, if_false, if_true]
          exact h
        | false =>
          cases h5 : (ignoredPaths.any
              (fun p => strStarts ((a.getAttr "href").getD "") p)) with
          | true =>
            simp only [processAnchor, h1, h2, h3, h4, h5, Bool.false_eq_true, if_false, if_true]
            exact h
          | false =>
            simp only [processAnchor, h1, h2, h3, h4, h5, Bool.false_eq_true, if_false]
            intro x hx
            rcases List.mem_append.mp hx with hx1 | hx2
            · exact h x hx1
            · have hxe : x = urljoinRooted base ((a.getAttr "href").getD "") := by
                simpa using hx2
              subst hxe
              refine ⟨(a.getAttr "href").getD "", rfl, by simpa using h2, h4, ?_⟩
              intro p hp
              have hall := (List.any_eq_false).mp h5
              exact Bool.eq_false_iff.mpr (hall p hp)

/-- Claim C10: the denylist is prefix-based — every link the scanner outputs
resolves a raw href that starts with "/wiki/", has no namespace colon, and
starts with NONE of the denylist prefixes; consequently a distinct detail
page whose path merely begins with a denylist prefix, such as
"/wiki/Typewriter", is excluded (concrete conjunct). -/
theorem c10_denylist_scope (base : String) (doc : Node) :
    (∀ x ∈ extractHeroLinksDoc base doc, ∃ href,
        x = urljoinRooted base href ∧
        strStarts href "/wiki/" = true ∧
        (removeWikiGo href.data).contains ':' = false ∧
        ∀ p ∈ ignoredPaths, strStarts href p = false) ∧
      extractHeroLinksDoc "https://wiki.example.org/wiki/Light"
        (Node.elem "html" []
          [Node.elem "h2" [] [Node.elem "span" [("id", "Heroes")] [Node.text "Heroes"]],
           Node.elem "ul" []
            [Node.elem "li" []
              [Node.elem "a" [("href", "/wiki/Typewriter")] [Node.text "Typewriter"]],
             Node.elem "li" []
              [Node.elem "a" [("href", "/wiki/Heroes_of_Esperia")] [Node.text "Heroes of Esperia"]]],
           Node.elem "h2" [] [Node.text "Other"]]) = [] := by
  refine ⟨?_, by decide⟩
  unfold extractHeroLinksDoc
  cases hs : findHeroesSectionIdx doc with
  | none => simp
  | some ri =>
    have hsound : LinkSound base ((linkNodesRange doc ri).foldl
        (linkFoldStep base) ([], [])) := by
      refine foldl_preserves ?_ _ _ ?_
      · intro b a hb
        exact foldl_preserves (fun b2 a2 hb2 => processAnchor_sound base b2 a2 hb2)
          (anchorsUnder a) b hb
      · intro x hx
        cases hx
    exact hsound

/-- Claim C10 witness: the soundness statement applied to a concrete link of
the concrete faction page. -/
theorem c10_denylist_scope_witness :
    ∃ href, "https://wiki.example.org/wiki/Alice"
        = urljoinRooted "https://wiki.example.org/wiki/Light" href ∧
      strStarts href "/wiki/" = true ∧
      (removeWikiGo href.data).contains ':' = false ∧
      ∀ p ∈ ignoredPaths, strStarts href p = false :=
  (c10_denylist_scope "https://wiki.example.org/wiki/Light" sampleFactionDoc).1
    "https://wiki.example.org/wiki/Alice" (by decide)

/-- Claim C4: `scrape_page` never propagates an exception — a failing fetch
or parse yields exactly the null-record sentinel (null hero record and four
empty sub-record lists), and a successful parse always yields a non-null
record. -/
theorem c4_scrape_page_sentinel (url : String) (fetch : Except String Node) :
    (∀ e, fetch = .error e → scrapePage url fetch = (none, [], [], [], [])) ∧
      (∀ doc, fetch = .ok doc → (scrapePage url fetch).1 ≠ none) := by
  constructor
  · intro e he
    subst he
    rfl
  · intro doc hd
    subst hd
    simp [scrapePage]

/-- Claim C4 witness: the sentinel equation at a concrete failing fetch. -/
theorem c4_scrape_page_sentinel_witness :
    scrapePage "https://wiki.example.org/wiki/Alice" (Except.error "boom")
      = (none, [], [], [], []) :=
  (c4_scrape_page_sentinel "https://wiki.example.org/wiki/Alice"
    (Except.error "boom")).1 "boom" rfl

/-- Claim C3 counterexample: the record's icon URL is stored as the raw image
`src` attribute, not whitespace-normalized — doubled spaces survive into the
stored field. -/
theorem c3_norm_counterexample :
    (scrapeBody "https://x.example/y" sampleIconDoc).1.icon
        = "https://img.example.org/a  b.png" ∧
      isNormWs ((scrapeBody "https://x.example/y" sampleIconDoc).1.icon).data = false := by
  constructor
  · rfl
  · decide

theorem mapUpsert_norm {m : List (String × String)} {k v : String}
    (hm : NormMap m) (hv : isNormWs v.data = true) :
    NormMap (mapUpsert m k v) := by
  intro p hp
  unfold mapUpsert at hp
  by_cases hany : (m.any (fun q => q.1 == k)) = true
  · simp only [hany, if_true] at hp
    rcases List.mem_map.mp hp with ⟨q, hq, hqe⟩
    by_cases hqk : (q.1 == k) = true
    · rw [if_pos hqk] at hqe
      rw [← hqe]
      exact hv
    · rw [if_neg hqk] at hqe
      rw [← hqe]
      exact hm q hq
  · simp only [hany, Bool.false_eq_true, if_false] at hp
    rcases List.mem_append.mp hp with hp1 | hp2
    · exact hm p hp1
    · have : p = (k, v) := by simpa using hp2
      rw [this]
      exact hv

theorem infoboxStep_norm {m : List (String × String)} {row : Node}
    (hm : NormMap m) : NormMap (infoboxStep m row) := by
  unfold infoboxStep
  cases hlab : findFirstDesc row (fun n => n.hasClassTok "pi-data-label") with
  | none => exact hm
  | some lab =>
    cases hval : findFirstDesc row (fun n => n.hasClassTok "pi-data-value") with
    | none => exact hm
    | some val =>
      exact mapUpsert_norm hm (isNormWs_tclean _)

theorem parseInfoboxMap_norm (doc : Node) : NormMap (parseInfoboxMap doc) := by
  unfold parseInfoboxMap
  exact foldl_preserves (fun b a hb => infoboxStep_norm hb) _ _ (by intro p hp; cases hp)

theorem mapGet_norm (doc : Node) (k : String) :
    isNormWs (mapGet (parseInfoboxMap doc) k).data = true := by
  unfold mapGet
  cases hf : (parseInfoboxMap doc).find? (fun p => p.1 == k) with
  | none => decide
  | some p =>
    have hmem : p ∈ parseInfoboxMap doc := List.mem_of_find?_eq_some hf
    exact parseInfoboxMap_norm doc p hmem

/-- Claim C3 (amended): the infobox-derived text fields of the assembled
record (faction, type, class, rarity, role) are whitespace-normalized —
consecutive whitespace collapsed to one space and trimmed — because they pass
through the cleaner; but the record's icon URL is the raw image source
attribute and the name is strip-only heading text, so those fields are NOT
normalized in general (see the counterexample). -/
theorem c3_infobox_fields_normalized (url : String) (doc : Node) :
    isNormWs ((scrapeBody url doc).1.faction).data = true ∧
      isNormWs ((scrapeBody url doc).1.typ).data = true ∧
      isNormWs ((scrapeBody url doc).1.cls).data = true ∧
      isNormWs ((scrapeBody url doc).1.rarity).data = true ∧
      isNormWs ((scrapeBody url doc).1.role).data = true := by
  refine ⟨?_, ?_, ?_, ?_, ?_⟩ <;>
    exact mapGet_norm doc _

/-- Claim C1 counterexample: on the infobox whose only role-like entry is
`Role = "Primary: Tank Secondary: DPS"`, the primary capture does not stop at
"Tank" — it runs to the end of the line, so the claimed result
`primary = "Tank"` is false. -/
theorem c1_roles_counterexample :
    extractRolesFromInfobox [("Role", "Primary: Tank Secondary: DPS")]
        = ("Tank Secondary: DPS", "DPS") ∧
      (extractRolesFromInfobox [("Role", "Primary: Tank Secondary: DPS")]).1 ≠ "Tank" := by
  constructor
  · rfl
  · decide

/-- Claim C1 (amended): the `primary : X` capture class `[^;|•\n]+` stops only
at a semicolon, pipe, bullet or newline, so on
`Role = "Primary: Tank Secondary: DPS"` the resolver returns primary
`"Tank Secondary: DPS"` (the trailing "Secondary: DPS" text included) and
secondary `"DPS"`; with an explicit separator, as in
`"Primary: Tank; Secondary: DPS"`, the primary capture is `"Tank"`. -/
theorem c1_roles_amended :
    extractRolesFromInfobox [("Role", "Primary: Tank Secondary: DPS")]
        = ("Tank Secondary: DPS", "DPS") ∧
      extractRolesFromInfobox [("Role", "Primary: Tank; Secondary: DPS")]
        = ("Tank", "DPS") := by
  constructor
  · rfl
  · rfl

end AfkScraper

